import Mathlib

/-!
Verification of the CSV-to-PDF report generator suite
(`generate_report.py`, `generate_report_alarm.py`, `generate_report_batch.py`,
`generate_report_operlog.py`, `report_utils.py`).

Dataframes are embedded column-major: a table is an ordered list of
(column-name, cell-values) pairs, mirroring a pandas `DataFrame` whose
cells are strings.  All helper functions are direct translations of the
Python sources named in the doc comments.
-/

namespace Pap

/-- The apostrophe character (the Python sources strip it from column names
and cell values via `.replace("'", "")`). -/
def apos : Char := Char.ofNat 39

/-- Python `str.strip()` whitespace test, restricted to the ASCII whitespace
that appears in these CSV files. -/
def isWS (c : Char) : Bool := c = ' ' ∨ c = '\t' ∨ c = '\n' ∨ c = '\r'

/-- Python `str.strip()` on a character list. -/
def stripChars (l : List Char) : List Char :=
  ((l.dropWhile isWS).reverse.dropWhile isWS).reverse

/-- Python `line.strip()` for a Lean string. -/
def strip (s : String) : String := String.mk (stripChars s.data)

/-- Quote removal `.replace('"', '').replace("'", "")`: removing every double and single
quote character. -/
def stripQuotes (s : String) : String :=
  String.mk (s.data.filter (fun c => ¬ (c = '"' ∨ c = apos)))

/-- Python `str.lower()` (ASCII fragment). -/
def lowerStr (s : String) : String := String.mk (s.data.map Char.toLower)

/-- Column-name cleaning used by every loader:
`df.columns.str.strip().str.replace('"', '').str.replace("'", "")`
(`report_utils.clean_dataframe_columns`, line 78, and the inline copies in
`generate_report_alarm.py` line 136 / `generate_report_operlog.py` line 176). -/
def cleanName (s : String) : String := stripQuotes (strip s)

/-- A pandas dataframe of string cells, column-major. -/
structure Df where
  cols : List (String × List String)
deriving Repr, DecidableEq

/-- Pandas `df.columns`. -/
def Df.names (df : Df) : List String := df.cols.map Prod.fst

/-- Membership test `col in df.columns`. -/
def Df.hasCol (df : Df) (n : String) : Bool := df.names.contains n

/-- Assignment `df.columns = df.columns.str.strip()...`: clean every column name. -/
def Df.cleanNames (df : Df) : Df :=
  ⟨df.cols.map (fun p => (cleanName p.1, p.2))⟩

/-- Pandas `df.rename(columns={old: new}, inplace=True)` — this renames every
column whose name equals `old`. -/
def Df.rename (df : Df) (old new : String) : Df :=
  ⟨df.cols.map (fun p => if p.1 = old then (new, p.2) else p)⟩

/-- Lookup `df[name]` — the first column carrying `name` (pandas label lookup). -/
def Df.getCol (df : Df) (n : String) : List String :=
  ((df.cols.find? (fun p => p.1 = n)).map Prod.snd).getD []

/-- Assignment `df[name] = values` — overwrite every column labelled `name`, or append a
new one when the label is absent. -/
def Df.setCol (df : Df) (n : String) (vs : List String) : Df :=
  if df.hasCol n then
    ⟨df.cols.map (fun p => if p.1 = n then (n, vs) else p)⟩
  else ⟨df.cols ++ [(n, vs)]⟩

/-- Selection `df[cols]` — select the listed labels in the listed order (pandas
returns every column carrying a requested label). -/
def Df.select (df : Df) (ns : List String) : Df :=
  ⟨ns.flatMap (fun n => df.cols.filter (fun p => p.1 = n))⟩

/-- Expression `[c for c in df.columns if c.lower() == col.lower()][0]` — the first
case-insensitive match for a required column name. -/
def Df.ciMatch (df : Df) (col : String) : Option String :=
  df.names.find? (fun c => lowerStr c = lowerStr col)

/-!
## Schema reconciliation

`report_utils.clean_dataframe_columns` (lines 75–91), also inlined verbatim
in `generate_report_alarm.load_alarm_data` (lines 139–147): walk the required
names in order; an exact match is kept, a case-insensitive match is renamed
in place, anything else is appended to `missing_cols`.
-/

/-- The `for col in required_cols` loop of `clean_dataframe_columns`
(column names are assumed already cleaned, as done by the caller). -/
def reconcileStd : Df → List String → Df × List String
  | df, [] => (df, [])
  | df, col :: rest =>
    if df.hasCol col then reconcileStd df rest
    else
      match df.ciMatch col with
      | some m => reconcileStd (df.rename m col) rest
      | none =>
        let r := reconcileStd df rest
        (r.1, col :: r.2)

/-- Constant `required_cols` of `generate_report_alarm.load_alarm_data` (line 116). -/
def alarmRequired : List String :=
  ["Date", "Time", "Alarm Message", "Alarm Status"]

/-- Constant `required_cols` of `generate_report_batch.load_batch_data` (line 91). -/
def batchRequired : List String :=
  ["Date", "Time", "USER", "TEMP_AIR_IN", "TEMP_PRODUCT_1",
   "TEMP_PRODUCT_2", "TEMP_PRODUCT_3"]

/-- Constant `required_cols` of `generate_report_operlog.load_operlog_data`
(line 159). -/
def operlogRequired : List String :=
  ["Date", "Time", "User", "Object_Action", "Trigger", "PreviousValue",
   "ChangedValue"]

/-- The column phase shared by `load_alarm_data` / `load_batch_data`:
clean the names, run the reconciliation loop, then keep
`available_cols = [col for col in required_cols if col in df.columns]`
in that order (`generate_report_alarm.py` lines 136–154,
`generate_report_batch.py` lines 113–121 via `clean_dataframe_columns`). -/
def loadColsStd (df : Df) (required : List String) : Df × List String :=
  let df1 := df.cleanNames
  let r := reconcileStd df1 required
  let available := required.filter (fun c => r.1.hasCol c)
  (r.1.select available, r.2)

/-- Concatenation `df['Screen'].astype(str) + ':' + df['Object_Action'].astype(str)`
(`generate_report_operlog.py` line 190): element-wise concatenation. -/
def combineScreenAction (screen action : List String) : List String :=
  List.zipWith (fun a b => a ++ ":" ++ b) screen action

/-- The reconciliation loop of `load_operlog_data` (lines 179–197), with the
special `Object_Action` fallback: when neither an exact nor a
case-insensitive match exists, the code first tests
`'Screen' in df.columns and 'Object_Action' in df.columns` (combine), then
`'Screen' in df.columns` (rename), else records the column as missing. -/
def reconcileOper : Df → List String → Df × List String
  | df, [] => (df, [])
  | df, col :: rest =>
    if df.hasCol col then reconcileOper df rest
    else
      match df.ciMatch col with
      | some m => reconcileOper (df.rename m col) rest
      | none =>
        if col = "Object_Action" then
          if df.hasCol "Screen" ∧ df.hasCol "Object_Action" then
            reconcileOper
              (df.setCol "Object_Action"
                (combineScreenAction (df.getCol "Screen")
                  (df.getCol "Object_Action"))) rest
          else if df.hasCol "Screen" then
            reconcileOper (df.rename "Screen" "Object_Action") rest
          else
            let r := reconcileOper df rest
            (r.1, col :: r.2)
        else
          let r := reconcileOper df rest
          (r.1, col :: r.2)

/-- Column phase of `load_operlog_data` (lines 176–204): clean names, run
the special reconciliation loop, project onto the available required
columns. -/
def loadOperlogCols (df : Df) : Df × List String :=
  let df1 := df.cleanNames
  let r := reconcileOper df1 operlogRequired
  let available := operlogRequired.filter (fun c => r.1.hasCol c)
  (r.1.select available, r.2)

/-- Number of data rows, `len(df)`. -/
def Df.rowCount (df : Df) : Nat :=
  ((df.cols.head?).map (fun p => p.2.length)).getD 0

/-!
## The consolidated pipeline of `generate_report.py`
-/

/-- Constant `MODE_COLS` of `generate_report.py` (lines 49–61). -/
def MODE_COLS : String → List String
  | "alarm" => alarmRequired
  | "operlog" => operlogRequired
  | _ => batchRequired

/-- Column resolution of `generate_report._load_df` (lines 105–111): drop
`Unnamed` spreadsheet artifacts, build `cmap = {c.lower(): c}` (a dict, so
the last case-variant wins), select `cmap[w.lower()]` for each required
name, and `raise ValueError` (modelled as `Except.error ()`) when any
required column is absent. -/
def loadDfCols (rawNames : List String) (mode : String) :
    Except Unit (List String) :=
  let names := rawNames.filter (fun c => ¬ c.startsWith "Unnamed")
  let req := MODE_COLS mode
  let cols := req.filterMap
    (fun w => names.reverse.find? (fun c => lowerStr c = lowerStr w))
  if cols.length = req.length then Except.ok cols else Except.error ()

/-- Elements of the reportlab `story` list, at the granularity the claims
need (title header, spacers, the missing-columns disclosure note, and the
data table or the no-data paragraph). -/
inductive StoryElem where
  | headerBlock : String → StoryElem
  | spacer : StoryElem
  | missingNote : List String → StoryElem
  | noData : StoryElem
  | dataTable : Df → StoryElem
deriving Repr, DecidableEq

/-- Function `create_missing_columns_note` (report_utils.py lines 172–179):
a note paragraph when the missing list is non-empty, otherwise `None`. -/
def create_missing_columns_note (missing : List String) : Option StoryElem :=
  if missing ≠ [] then some (StoryElem.missingNote missing) else none

/-- Story assembly of `create_pdf_report`
(generate_report_operlog.py lines 250–298, generate_report_alarm.py and
generate_report_batch.py analogous): title header, a spacer, the
missing-columns note plus spacer when `missing_cols` is truthy, then either
the no-data paragraph or the data table. -/
def buildStory (title : String) (df : Df) (missing : List String) :
    List StoryElem :=
  [StoryElem.headerBlock title, StoryElem.spacer]
    ++ (if missing ≠ [] then [StoryElem.missingNote missing, StoryElem.spacer]
        else [])
    ++ (if df.rowCount = 0 then [StoryElem.noData]
        else [StoryElem.dataTable df])

/-- Driver `generate_report.main` (lines 208–221): the whole generation
pipeline (source location through PDF build and print) runs inside one
`try:` block; the `except` clause logs the exception, shows a popup, and
re-raises.  The pipeline body is abstracted as the outcome of its n-th
execution; the code consults only execution 0. -/
def mainDriver (runs : Nat → Except String Unit) : Except String Unit :=
  match runs 0 with
  | Except.ok a => Except.ok a
  | Except.error e => Except.error e

/-- Retry policy in the specification's words (spec §5): if the generation
step throws for any reason, wait a short fixed interval and re-execute the
entire pipeline exactly once before surfacing the error as fatal.  Stated
here only to be compared against `mainDriver`. -/
def mainDriverSpec (runs : Nat → Except String Unit) : Except String Unit :=
  match runs 0 with
  | Except.ok a => Except.ok a
  | Except.error _ => runs 1

/-!
## Layout computation (`generate_report._col_widths`, lines 141–148)

reportlab lengths as exact rationals: `inch = 72`, `cm = inch / 2.54`,
`mm = cm * 0.1`, `A4 = (21 * cm, 29.7 * cm)`, `landscape(A4)` swaps them.
-/

/-- One millimetre in points, `mm = 72 / 25.4`. -/
def mmQ : ℚ := 360 / 127

/-- Width of a landscape A4 page, `landscape(A4)[0] = 29.7 * cm`. -/
def pwLandscapeA4 : ℚ := 297 * mmQ

/-- Constant `NARROW_COLS = {"date", "time"}` (generate_report.py line 46). -/
def isNarrow (c : String) : Bool :=
  lowerStr c = "date" ∨ lowerStr c = "time"

/-- Function `_col_widths` (generate_report.py lines 141–148): date/time
columns get the fixed narrow width `25 * mm`; the remaining width (at least
`10 * mm`) is split evenly among the other columns, the divisor being
guarded by `max(wid, 1)`. -/
def colWidths (names : List String) (pw : ℚ) : List ℚ :=
  let avail := pw - 20 * mmQ
  let nar := names.filter isNarrow
  let nw : ℚ := 25 * mmQ
  let wid : Nat := names.length - nar.length
  let rem : ℚ := max (avail - (nar.length : ℚ) * nw) (10 * mmQ)
  let ww : ℚ := rem / ((max wid 1 : Nat) : ℚ)
  names.map (fun c => if isNarrow c then nw else ww)

/-!
## Date-folder policy (`generate_report_operlog.py` lines 59–114)
-/

/-- Value of an ASCII digit. -/
def dv (c : Char) : Nat := c.toNat - 48

/-- A calendar date as `datetime(year, month, day)` carries it. -/
structure DDate where
  year : Nat
  month : Nat
  day : Nat
deriving Repr, DecidableEq

/-- Chronological key: for the dates handled here (month and day below
100) the numeric key order coincides with `datetime` comparison, which is
lexicographic on (year, month, day). -/
def DDate.key (d : DDate) : Nat := d.year * 10000 + d.month * 100 + d.day

/-- Boolean chronological comparison of two dates. -/
def DDate.leB (a b : DDate) : Bool := a.key ≤ b.key

/-- Python `calendar` leap-year rule used by `datetime`. -/
def isLeap (y : Nat) : Bool :=
  y % 4 = 0 ∧ (y % 100 ≠ 0 ∨ y % 400 = 0)

/-- Length of a month, as `datetime.__new__` validates the day against. -/
def daysInMonth (y m : Nat) : Nat :=
  if m = 2 then (if isLeap y then 29 else 28)
  else if m = 4 ∨ m = 6 ∨ m = 9 ∨ m = 11 then 30
  else 31

/-- Validity test of the `datetime(year, month, day)` constructor. -/
def validDateB (y m d : Nat) : Bool :=
  1 ≤ y ∧ y ≤ 9999 ∧ 1 ≤ m ∧ m ≤ 12 ∧ 1 ≤ d ∧ d ≤ daysInMonth y m

/-- Character-level body of `parse_directory_date`. -/
def parseDirDateChars (l : List Char) : Option DDate :=
  match l with
  | [d1, d2, m1, m2, y1, y2] =>
    if d1.isDigit && d2.isDigit && m1.isDigit && m2.isDigit &&
        y1.isDigit && y2.isDigit then
      let day := 10 * dv d1 + dv d2
      let month := 10 * dv m1 + dv m2
      let year := 2000 + (10 * dv y1 + dv y2)
      if validDateB year month day then some ⟨year, month, day⟩ else none
    else none
  | _ => none

/-- Function `parse_directory_date` (generate_report_operlog.py lines
59–74): an exact six-digit `DDMMYY` match (regex
`^(\d{2})(\d{2})(\d{2})$`), year `2000 + YY`, validated through the
`datetime` constructor; `None` on any failure. -/
def parse_directory_date (s : String) : Option DDate :=
  parseDirDateChars s.data

/-- Qualification in the specification's words (spec §4.2/§6): the name is
exactly six digits and its `DDMMYY` decoding, with the two-digit year read
as `2000 + YY`, is a valid calendar date. -/
def qualifiesDDMMYY (s : String) : Prop :=
  s.data.length = 6 ∧ (∀ c ∈ s.data, c.isDigit = true) ∧
  validDateB (2000 + (10 * dv (s.data.getD 4 ' ') + dv (s.data.getD 5 ' ')))
    (10 * dv (s.data.getD 2 ' ') + dv (s.data.getD 3 ' '))
    (10 * dv (s.data.getD 0 ' ') + dv (s.data.getD 1 ' ')) = true

/-- Stable descending insertion by date key: an element moves past another
only when the other is strictly more recent, matching
`date_dirs.sort(key=lambda x: x[0], reverse=True)` (a stable sort). -/
def insertDesc (p : DDate × String) :
    List (DDate × String) → List (DDate × String)
  | [] => [p]
  | q :: rest =>
    if p.1.key < q.1.key then q :: insertDesc p rest else p :: q :: rest

/-- Stable descending sort by date, element by element. -/
def sortDesc : List (DDate × String) → List (DDate × String)
  | [] => []
  | p :: rest => insertDesc p (sortDesc rest)

/-- Directory-selection phase of `find_csv_operlog`
(generate_report_operlog.py lines 82–96): keep the subdirectory names whose
`parse_directory_date` succeeds, sort the (date, name) pairs by date with
the most recent first, and take the first one; `None` when no directory
qualifies. -/
def findMostRecentDir (items : List String) : Option String :=
  let dateDirs := items.filterMap
    (fun n => (parse_directory_date n).map (fun d => (d, n)))
  ((sortDesc dateDirs).head?).map Prod.snd

/-!
## Date reformatting (`report_utils.convert_date_format`, lines 42–55)

CPython `_strptime` compiles `'%m/%d/%Y'` to the anchored regex
`(1[0-2]|0[1-9]|[1-9])/(3[01]|[12]\d|0[1-9]|[1-9])/(\d\d\d\d)` requiring a
full match, then calls the `datetime` constructor, which re-validates the
day against the month length.
-/

/-- Year directive `%Y`: exactly four digits, consuming the whole rest. -/
def parseYear4 (l : List Char) : Option Nat :=
  match l with
  | [a, b, c, d] =>
    if a.isDigit && b.isDigit && c.isDigit && d.isDigit then
      some (1000 * dv a + 100 * dv b + 10 * dv c + dv d)
    else none
  | _ => none

/-- Day-and-year tail `(3[01]|[12]\d|0[1-9]|[1-9])/(\d\d\d\d)` with regex
backtracking: the two-digit day alternative is tried first, the one-digit
alternative on failure of the remainder. -/
def parseDayTail (l : List Char) : Option (Nat × Nat) :=
  (match l with
   | a :: b :: '/' :: rest =>
     if a.isDigit && b.isDigit && decide (1 ≤ 10 * dv a + dv b) &&
         decide (10 * dv a + dv b ≤ 31) then
       (parseYear4 rest).map (fun y => (10 * dv a + dv b, y))
     else none
   | _ => none)
  <|>
  (match l with
   | a :: '/' :: rest =>
     if a.isDigit && decide (1 ≤ dv a) then
       (parseYear4 rest).map (fun y => (dv a, y))
     else none
   | _ => none)

/-- Full `%m/%d/%Y` regex with backtracking over the month alternatives. -/
def parseMDY (l : List Char) : Option (Nat × Nat × Nat) :=
  (match l with
   | a :: b :: '/' :: rest =>
     if a.isDigit && b.isDigit && decide (1 ≤ 10 * dv a + dv b) &&
         decide (10 * dv a + dv b ≤ 12) then
       (parseDayTail rest).map (fun p => (10 * dv a + dv b, p.1, p.2))
     else none
   | _ => none)
  <|>
  (match l with
   | a :: '/' :: rest =>
     if a.isDigit && decide (1 ≤ dv a) then
       (parseDayTail rest).map (fun p => (dv a, p.1, p.2))
     else none
   | _ => none)

/-- Call `datetime.strptime(s, '%m/%d/%Y')`: regex match followed by the
`datetime` constructor's validity check; `none` models the `ValueError`. -/
def strptimeMDY (s : String) : Option (Nat × Nat × Nat) :=
  match parseMDY s.data with
  | some (m, d, y) => if validDateB y m d then some (m, d, y) else none
  | none => none

/-- Zero-padded two-digit rendering used by `%d`, `%m` and `%y`. -/
def pad2 (n : Nat) : String :=
  if n < 10 then "0" ++ toString n else toString n

/-- Call `dt.strftime('%d/%m/%y')`. -/
def strftimeDMy (m d y : Nat) : String :=
  pad2 d ++ "/" ++ pad2 m ++ "/" ++ pad2 (y % 100)

/-- Function `convert_date_format` (report_utils.py lines 42–55): blank
values are returned as they are; otherwise the value is stripped and parsed
strictly as MM/DD/YYYY; on success the reformatted DD/MM/YY string is
returned, on any failure the except-clause returns `date_str` — which was
rebound to the *stripped* string before the parse. -/
def convert_date_format (s : String) : String :=
  if s = "" ∨ strip s = "" then s
  else
    match strptimeMDY (strip s) with
    | some (m, d, y) => strftimeDMy m d y
    | none => strip s

/-!
## Temperature normalization (`generate_report_batch.py` lines 126–137)
-/

/-- Value of a digit string. -/
def digitsVal (l : List Char) : Nat :=
  l.foldl (fun acc c => 10 * acc + dv c) 0

/-- Lexical part of float parsing: after stripping surrounding whitespace,
an optional sign, integer digits, and an optional dot with fraction digits;
at least one digit overall and nothing else.  The numeric value is taken
separately by `partsVal`. -/
def splitNumParts (s : String) : Option (Bool × List Char × List Char) :=
  let l := stripChars s.data
  let sl : Bool × List Char :=
    match l with
    | '-' :: rest => (true, rest)
    | '+' :: rest => (false, rest)
    | _ => (false, l)
  let intPart := sl.2.takeWhile Char.isDigit
  let rest1 := sl.2.dropWhile Char.isDigit
  match rest1 with
  | [] => if intPart = [] then none else some (sl.1, intPart, [])
  | '.' :: fracRest =>
    let fracPart := fracRest.takeWhile Char.isDigit
    let rest2 := fracRest.dropWhile Char.isDigit
    if rest2 = [] ∧ (intPart ≠ [] ∨ fracPart ≠ []) then
      some (sl.1, intPart, fracPart)
    else none
  | _ => none

/-- Numeric value of the lexed sign, integer digits and fraction digits. -/
def partsVal (p : Bool × List Char × List Char) : ℚ :=
  (if p.1 then -1 else 1) *
    ((digitsVal p.2.1 : ℚ) +
      (digitsVal p.2.2 : ℚ) / (10 : ℚ) ^ p.2.2.length)

/-- Call `pd.to_numeric(..., errors='coerce')` on one cell, on the plain
decimal fragment `[+-]? digits [. digits]?` (with surrounding whitespace
allowed) that these numeric columns use; everything else coerces to null. -/
def parseDecimal (s : String) : Option ℚ :=
  (splitNumParts s).map partsVal

/-- Pandas `.str.replace(',', '.')` — every comma becomes a dot. -/
def replaceCommaDot (s : String) : String :=
  String.mk (s.data.map (fun c => if c = ',' then '.' else c))

/-- Numpy half-to-even rounding of a rational to an integer (what
`.round(1)` applies after scaling by ten). -/
def roundHalfEven (x : ℚ) : ℤ :=
  if x - x.floor < 1 / 2 then x.floor
  else if (1 : ℚ) / 2 < x - x.floor then x.floor + 1
  else if x.floor % 2 = 0 then x.floor else x.floor + 1

/-- Pandas `.round(1)`: round to one decimal place, ties to even. -/
def round1 (x : ℚ) : ℚ := ((roundHalfEven (10 * x) : ℤ) : ℚ) / 10

/-- Per-cell temperature normalization of `load_batch_data`
(generate_report_batch.py lines 126–137): replace the decimal comma, coerce
to a number (null when unparseable), round to one decimal place. -/
def normTemp (s : String) : Option ℚ :=
  (parseDecimal (replaceCommaDot s)).map round1

/-!
## Header scan (`report_utils.find_header_row`, lines 58–72; identical copy
in `generate_report_alarm.py` lines 74–88)
-/

/-- Test `clean_line.lower().startswith('date')` applied to
`line.strip().replace('"', '').replace("'", "")`. -/
def isDateHeaderLine (l : String) : Bool :=
  (lowerStr (stripQuotes (strip l))).startsWith "date"

/-- The scan loop `for i, line in enumerate(f)` with the
`if i >= max_scan_rows: break` budget. -/
def scanHeader : List String → Nat → Nat → Option Nat
  | [], _, _ => none
  | l :: ls, maxRows, i =>
    if maxRows ≤ i then none
    else if isDateHeaderLine l then some i
    else scanHeader ls maxRows (i + 1)

/-- Function `find_header_row`: the file is `none` when opening or reading
raises (decode errors are already suppressed by `errors='ignore'`); any
failure, like an exhausted scan, falls back to the fixed default 3. -/
def find_header_row (file : Option (List String)) (maxScanRows : Nat) :
    Nat :=
  match file with
  | none => 3
  | some lines => (scanHeader lines maxScanRows 0).getD 3

/-!
## Theorems
-/

/-- C1: for OperationLog reconciliation with "Object_Action" unmatched, a
lone "Screen" column is indeed renamed to "Object_Action" (and
"Object_Action" is not reported missing); but on a table carrying *both* a
"Screen" and an "Object_Action" column the output "Object_Action" column
keeps its original values instead of becoming "{Screen}:{Object_Action}":
the combine branch of `load_operlog_data` (line 188) is guarded by
"Object_Action" being absent from the columns, so it can never fire. -/
theorem operlog_object_action_combine_unreachable :
    ((loadOperlogCols ⟨[("Date", ["d1"]), ("Time", ["t1"]), ("User", ["u1"]),
        ("Screen", ["S1"]), ("Object_Action", ["A1"]), ("Trigger", ["g1"]),
        ("PreviousValue", ["p1"]),
        ("ChangedValue", ["c1"])]⟩).1.getCol "Object_Action" = ["A1"]) ∧
    ((loadOperlogCols ⟨[("Date", ["d1"]), ("Time", ["t1"]), ("User", ["u1"]),
        ("Screen", ["S1"]), ("Object_Action", ["A1"]), ("Trigger", ["g1"]),
        ("PreviousValue", ["p1"]),
        ("ChangedValue", ["c1"])]⟩).1.getCol "Object_Action" ≠ ["S1:A1"]) ∧
    ((loadOperlogCols ⟨[("Date", ["d1"]), ("Time", ["t1"]), ("User", ["u1"]),
        ("Screen", ["S1"]), ("Object_Action", ["A1"]), ("Trigger", ["g1"]),
        ("PreviousValue", ["p1"]),
        ("ChangedValue", ["c1"])]⟩).2 = []) ∧
    ((loadOperlogCols
        ⟨[("Date", ["d1"]), ("Screen", ["S1"])]⟩).1.getCol "Object_Action"
      = ["S1"]) ∧
    ("Object_Action" ∉
      (loadOperlogCols ⟨[("Date", ["d1"]), ("Screen", ["S1"])]⟩).2) := by
  decide

/-- C2 counterexample: the column-resolution step of
`generate_report._load_df` raises `ValueError` (here `Except.error ()`)
when required columns are absent — reconciliation in this pipeline *does*
abort on a parsed table that lacks the alarm schema's message and status
columns, contradicting the claim that it never raises for missing
columns. -/
theorem load_df_missing_columns_raises :
    loadDfCols ["Date", "Time"] "alarm" = Except.error () := by
  rfl

/-- C3 counterexample: with a generation pipeline that fails on its first
execution and would succeed on a second, `generate_report.main` surfaces
the first failure directly — it never re-executes the pipeline, so its
outcome differs from the spec's retry-once policy. -/
theorem main_no_retry_counterexample :
    mainDriver (fun n => if n = 0 then Except.error "transient"
        else Except.ok ())
      = Except.error "transient" ∧
    mainDriverSpec (fun n => if n = 0 then Except.error "transient"
        else Except.ok ())
      = Except.ok () ∧
    mainDriver (fun n => if n = 0 then Except.error "transient"
        else Except.ok ())
      ≠ mainDriverSpec (fun n => if n = 0 then Except.error "transient"
        else Except.ok ()) := by
  refine ⟨rfl, rfl, ?_⟩
  intro h
  simp [mainDriver, mainDriverSpec] at h

/-- C3 amended: `generate_report.main` executes the generation pipeline
exactly once and surfaces its outcome as-is; a failure is logged, alerted
and re-raised as fatal with no retry. -/
theorem main_single_execution (runs : Nat → Except String Unit) :
    mainDriver runs = runs 0 := by
  unfold mainDriver
  cases runs 0 <;> rfl

/-- C9 counterexample: " x" does not parse as MM/DD/YYYY, yet
`convert_date_format` returns "x" — the *stripped* value, not the original
unchanged — because the except-clause returns the variable that was rebound
to `str(date_str).strip()` before the parse. -/
theorem convert_date_format_strips_counterexample :
    strptimeMDY (strip " x") = none ∧ convert_date_format " x" ≠ " x" := by
  decide

theorem scanHeader_eq_findIdx (lines : List String) :
    ∀ maxRows i, scanHeader lines maxRows i =
      (lines.take (maxRows - i)).findIdx? isDateHeaderLine i := by
  induction lines with
  | nil =>
    intro m i
    simp [scanHeader, List.findIdx?]
  | cons l ls ih =>
    intro m i
    by_cases h : m ≤ i
    · have h0 : m - i = 0 := Nat.sub_eq_zero_of_le h
      simp [scanHeader, h, h0, List.findIdx?]
    · have hpos : m - i = (m - (i + 1)) + 1 := by omega
      rw [hpos, List.take_succ_cons, List.findIdx?_cons]
      by_cases hd : isDateHeaderLine l
      · simp [scanHeader, h, hd]
      · simp [scanHeader, h, hd, ih m (i + 1)]

/-- C10: the header scan is a total function: on a readable file it
returns the zero-based index of the first line within the scan budget
whose trimmed, quote-stripped text begins case-insensitively with "date"
(`findIdx?` on the budget-limited prefix), it returns the fixed default 3
when no such line exists within the budget, and it returns 3 when reading
the file fails. -/
theorem find_header_row_first_index (lines : List String) (budget : Nat) :
    find_header_row none budget = 3 ∧
    find_header_row (some lines) budget =
      (match (lines.take budget).findIdx? isDateHeaderLine with
       | some i => i
       | none => 3) := by
  refine ⟨rfl, ?_⟩
  show (scanHeader lines budget 0).getD 3 = _
  rw [scanHeader_eq_findIdx lines budget 0]
  simp only [Nat.sub_zero]
  cases (lines.take budget).findIdx? isDateHeaderLine <;> rfl

theorem sum_map_ite_narrow (names : List String) (a b : ℚ) :
    (names.map (fun c => if isNarrow c then a else b)).sum =
      ((names.filter isNarrow).length : ℚ) * a +
      ((names.filter (fun c => !isNarrow c)).length : ℚ) * b := by
  induction names with
  | nil => simp
  | cons c cs ih =>
    by_cases h : isNarrow c <;> simp [h, ih] <;> ring

theorem length_filter_narrow_split (names : List String) :
    (names.filter isNarrow).length +
      (names.filter (fun c => !isNarrow c)).length = names.length := by
  induction names with
  | nil => rfl
  | cons c cs ih =>
    by_cases h : isNarrow c <;> simp [h] <;> omega

/-- C6: on a landscape A4 page, `_col_widths` returns a strictly positive
width for every column, and the widths sum to at most the available width
(page width minus the 20 mm of margins) for every column list with at most
ten narrow (date/time-named) columns — which covers every final column
list the pipeline can produce (at most two narrow columns), including the
degenerate all-fixed and single-column lists; the `max(wid, 1)` guard keeps
the flexible-share division away from zero. -/
theorem col_widths_positive_bounded (names : List String)
    (h : (names.filter isNarrow).length ≤ 10) :
    (∀ w ∈ colWidths names pwLandscapeA4, 0 < w) ∧
    (colWidths names pwLandscapeA4).sum ≤ pwLandscapeA4 - 20 * mmQ := by
  have hmm : (0 : ℚ) < mmQ := by norm_num [mmQ]
  set avail : ℚ := pwLandscapeA4 - 20 * mmQ with havail
  set k : Nat := (names.filter isNarrow).length with hk
  set wid : Nat := names.length - k with hwid
  set nw : ℚ := 25 * mmQ with hnw
  set rem : ℚ := max (avail - (k : ℚ) * nw) (10 * mmQ) with hrem
  set ww : ℚ := rem / ((max wid 1 : Nat) : ℚ) with hww
  have hcw : colWidths names pwLandscapeA4 =
      names.map (fun c => if isNarrow c then nw else ww) := rfl
  have havail277 : avail = 277 * mmQ := by
    rw [havail, pwLandscapeA4]; ring
  have hk10 : (k : ℚ) ≤ 10 := by exact_mod_cast h
  have hk0 : (0 : ℚ) ≤ (k : ℚ) := by positivity
  have hrempos : 0 < rem := lt_of_lt_of_le (by positivity) (le_max_right _ _)
  have hmaxpos : (0 : ℚ) < ((max wid 1 : Nat) : ℚ) := by
    have h1 : 1 ≤ max wid 1 := Nat.le_max_right wid 1
    exact_mod_cast Nat.lt_of_lt_of_le Nat.zero_lt_one h1
  have hwwpos : 0 < ww := by
    rw [hww]; exact div_pos hrempos hmaxpos
  have hnwpos : 0 < nw := by rw [hnw]; positivity
  constructor
  · intro w hw
    rw [hcw] at hw
    obtain ⟨c, _, hcval⟩ := List.mem_map.mp hw
    by_cases hc : isNarrow c
    · rw [hc] at hcval; simp at hcval; rw [← hcval]; exact hnwpos
    · simp [hc] at hcval; rw [← hcval]; exact hwwpos
  · rw [hcw, sum_map_ite_narrow]
    have hsplit := length_filter_narrow_split names
    have hfeq : ((names.filter (fun c => !isNarrow c)).length : ℚ)
        = (wid : ℚ) := by
      have hkle : k ≤ names.length := by omega
      have hwn : (names.filter (fun c => !isNarrow c)).length
          = names.length - k := by omega
      rw [hwn, hwid]
    rw [← hk, hfeq]
    by_cases hw0 : wid = 0
    · rw [hw0]
      simp only [Nat.cast_zero, zero_mul, add_zero]
      rw [havail277, hnw]
      nlinarith
    · have hmaxw : max wid 1 = wid := Nat.max_eq_left (by omega)
      have hwidne : ((wid : ℚ)) ≠ 0 := by
        exact_mod_cast hw0
      have hsum : (wid : ℚ) * ww = rem := by
        rw [hww, hmaxw]
        field_simp
      rw [hsum]
      rcases max_cases (avail - (k : ℚ) * nw) (10 * mmQ) with
        ⟨heq, _⟩ | ⟨heq, _⟩
      · rw [← hrem] at heq
        rw [heq]; linarith
      · rw [← hrem] at heq
        rw [heq, havail277, hnw]
        nlinarith

/-- C6 witness: the degenerate all-fixed column list, evaluated through the
theorem. -/
theorem col_widths_witness :
    (∀ w ∈ colWidths ["Date", "Time"] pwLandscapeA4, 0 < w) ∧
    (colWidths ["Date", "Time"] pwLandscapeA4).sum ≤
      pwLandscapeA4 - 20 * mmQ :=
  col_widths_positive_bounded ["Date", "Time"] (by decide)

theorem rat_floor_eq_int_floor (x : ℚ) : x.floor = ⌊x⌋ := by
  rw [Rat.floor_def', Rat.floor_def]

theorem abs_roundHalfEven_sub (x : ℚ) :
    |((roundHalfEven x : ℤ) : ℚ) - x| ≤ 1 / 2 := by
  have hfl : ((⌊x⌋ : ℤ) : ℚ) ≤ x := Int.floor_le x
  have hfl1 : x < (⌊x⌋ : ℚ) + 1 := Int.lt_floor_add_one x
  unfold roundHalfEven
  rw [rat_floor_eq_int_floor]
  by_cases h1 : x - (⌊x⌋ : ℚ) < 1 / 2
  · rw [if_pos h1, abs_le]
    constructor <;> linarith
  · rw [if_neg h1]
    by_cases h2 : (1 : ℚ) / 2 < x - (⌊x⌋ : ℚ)
    · rw [if_pos h2]
      push_cast
      rw [abs_le]
      constructor <;> linarith
    · rw [if_neg h2]
      by_cases h3 : ⌊x⌋ % 2 = 0
      · rw [if_pos h3, abs_le]
        constructor <;> linarith
      · rw [if_neg h3]
        push_cast
        rw [abs_le]
        constructor <;> linarith

/-- C8: temperature normalization replaces the decimal comma with a dot,
coerces to a number with unparseable cells becoming null instead of
raising, and rounds to one decimal place (the result is an integer number
of tenths within 1/20 of the parsed value); in particular "23.456" yields
23.5 and "23,4" yields 23.4. -/
theorem temperature_normalization (s : String) (q : ℚ) :
    (parseDecimal (replaceCommaDot s) = none → normTemp s = none) ∧
    (parseDecimal (replaceCommaDot s) = some q →
      normTemp s = some (round1 q)) ∧
    (|round1 q - q| ≤ 1 / 20 ∧ ∃ z : ℤ, round1 q = (z : ℚ) / 10) ∧
    normTemp "23.456" = some (47 / 2) ∧
    normTemp "23,4" = some (117 / 5) ∧
    normTemp "abc" = none := by
  refine ⟨?_, ?_, ⟨?_, ⟨roundHalfEven (10 * q), rfl⟩⟩, ?_, ?_, ?_⟩
  · intro h
    rw [normTemp, h]
    rfl
  · intro h
    rw [normTemp, h]
    rfl
  · have habs := abs_roundHalfEven_sub (10 * q)
    have hd : round1 q - q =
        (((roundHalfEven (10 * q) : ℤ) : ℚ) - 10 * q) / 10 := by
      rw [round1]; ring
    rw [hd, abs_div]
    have h10 : |(10 : ℚ)| = 10 := by norm_num
    rw [h10]
    linarith
  · have hsp : splitNumParts (replaceCommaDot "23.456") =
        some (false, ['2', '3'], ['4', '5', '6']) := by decide
    have hd1 : digitsVal ['2', '3'] = 23 := by decide
    have hd2 : digitsVal ['4', '5', '6'] = 456 := by decide
    rw [normTemp, parseDecimal, hsp]
    show some (round1 (partsVal (false, ['2', '3'], ['4', '5', '6']))) = _
    have hv : partsVal (false, ['2', '3'], ['4', '5', '6'])
        = 23 + 456 / 10 ^ 3 := by
      rw [partsVal]
      rw [show (false, ['2', '3'], ['4', '5', '6']).2.1 = ['2', '3'] from rfl]
      rw [show (false, ['2', '3'], ['4', '5', '6']).2.2
          = ['4', '5', '6'] from rfl]
      rw [hd1, hd2]
      norm_num
    rw [hv]
    congr 1
    unfold round1 roundHalfEven
    rw [rat_floor_eq_int_floor]
    norm_num
  · have hsp : splitNumParts (replaceCommaDot "23,4") =
        some (false, ['2', '3'], ['4']) := by decide
    have hd1 : digitsVal ['2', '3'] = 23 := by decide
    have hd2 : digitsVal ['4'] = 4 := by decide
    rw [normTemp, parseDecimal, hsp]
    show some (round1 (partsVal (false, ['2', '3'], ['4']))) = _
    have hv : partsVal (false, ['2', '3'], ['4']) = 23 + 4 / 10 ^ 1 := by
      rw [partsVal]
      rw [show (false, ['2', '3'], ['4']).2.1 = ['2', '3'] from rfl]
      rw [show (false, ['2', '3'], ['4']).2.2 = ['4'] from rfl]
      rw [hd1, hd2]
      norm_num
    rw [hv]
    congr 1
    unfold round1 roundHalfEven
    rw [rat_floor_eq_int_floor]
    norm_num
  · have hsp : splitNumParts (replaceCommaDot "abc") = none := by decide
    rw [normTemp, parseDecimal, hsp]
    rfl

/-- C8 witness: an unparseable cell evaluated through the theorem's
null-coercion clause. -/
theorem temperature_normalization_witness : normTemp "1.2.3" = none :=
  (temperature_normalization "1.2.3" 0).1 (by
    have h : splitNumParts (replaceCommaDot "1.2.3") = none := by decide
    rw [parseDecimal, h]
    rfl)

/-- C9 amended: date normalization parses the stripped value strictly as
month/day/four-digit-year and reformats it to day/month/two-digit-year;
blank or missing values are returned unchanged; a non-blank value that does
not parse is returned with its surrounding whitespace stripped but
otherwise unchanged; the function is total (never raises) and is applied
value-wise, so no row is ever dropped. -/
theorem convert_date_format_behaviour (s : String) :
    ((s = "" ∨ strip s = "") → convert_date_format s = s) ∧
    (¬(s = "" ∨ strip s = "") → strptimeMDY (strip s) = none →
      convert_date_format s = strip s) ∧
    (∀ m d y, ¬(s = "" ∨ strip s = "") →
      strptimeMDY (strip s) = some (m, d, y) →
      convert_date_format s =
        pad2 d ++ "/" ++ pad2 m ++ "/" ++ pad2 (y % 100)) ∧
    (∀ col : List String,
      (col.map convert_date_format).length = col.length) ∧
    convert_date_format "04/15/2024" = "15/04/24" := by
  refine ⟨?_, ?_, ?_, ?_, ?_⟩
  · intro h
    rw [convert_date_format, if_pos h]
  · intro h hp
    rw [convert_date_format, if_neg h, hp]
  · intro m d y h hp
    rw [convert_date_format, if_neg h, hp]
    rfl
  · intro col
    exact List.length_map col convert_date_format
  · decide

/-- C9 witness: a single-digit month/day value reformatted through the
theorem's parse clause. -/
theorem convert_date_format_witness :
    convert_date_format "3/4/2024" = "04/03/24" :=
  (convert_date_format_behaviour "3/4/2024").2.2.1 3 4 2024
    (by decide) (by decide)

theorem parseDirDateChars_isSome_iff (l : List Char) :
    (parseDirDateChars l).isSome = true ↔
      (l.length = 6 ∧ (∀ c ∈ l, c.isDigit = true) ∧
        validDateB (2000 + (10 * dv (l.getD 4 ' ') + dv (l.getD 5 ' ')))
          (10 * dv (l.getD 2 ' ') + dv (l.getD 3 ' '))
          (10 * dv (l.getD 0 ' ') + dv (l.getD 1 ' ')) = true) := by
  rcases l with _ | ⟨c0, _ | ⟨c1, _ | ⟨c2, _ | ⟨c3, _ | ⟨c4, _ |
    ⟨c5, _ | ⟨c6, rest⟩⟩⟩⟩⟩⟩⟩
  · simp [parseDirDateChars]
  · simp [parseDirDateChars]
  · simp [parseDirDateChars]
  · simp [parseDirDateChars]
  · simp [parseDirDateChars]
  · simp [parseDirDateChars]
  · constructor
    · intro h
      by_cases hd : (c0.isDigit && c1.isDigit && c2.isDigit &&
          c3.isDigit && c4.isDigit && c5.isDigit) = true
      · by_cases hv : validDateB (2000 + (10 * dv c4 + dv c5))
            (10 * dv c2 + dv c3) (10 * dv c0 + dv c1) = true
        · refine ⟨rfl, ?_, hv⟩
          intro c hc
          simp only [Bool.and_eq_true] at hd
          simp only [List.mem_cons, List.not_mem_nil, or_false] at hc
          rcases hc with rfl | rfl | rfl | rfl | rfl | rfl
          exacts [hd.1.1.1.1.1, hd.1.1.1.1.2, hd.1.1.1.2, hd.1.1.2,
            hd.1.2, hd.2]
        · exfalso
          simp [parseDirDateChars, hd, hv] at h
      · exfalso
        simp [parseDirDateChars, hd] at h
    · rintro ⟨-, hdig, hval⟩
      have hd : (c0.isDigit && c1.isDigit && c2.isDigit && c3.isDigit &&
          c4.isDigit && c5.isDigit) = true := by
        simp only [Bool.and_eq_true]
        exact ⟨⟨⟨⟨⟨hdig c0 (by simp), hdig c1 (by simp)⟩,
          hdig c2 (by simp)⟩, hdig c3 (by simp)⟩, hdig c4 (by simp)⟩,
          hdig c5 (by simp)⟩
      have hval2 : validDateB (2000 + (10 * dv c4 + dv c5))
          (10 * dv c2 + dv c3) (10 * dv c0 + dv c1) = true := hval
      simp [parseDirDateChars, hd, hval2]
  · have hred : parseDirDateChars
        (c0 :: c1 :: c2 :: c3 :: c4 :: c5 :: c6 :: rest) = none := rfl
    rw [hred]
    simp only [Option.isSome_none, List.length_cons]
    constructor
    · intro h
      cases h
    · rintro ⟨h6, -⟩
      exfalso
      omega

theorem mem_insertDesc (p q : DDate × String) (l : List (DDate × String)) :
    q ∈ insertDesc p l ↔ q = p ∨ q ∈ l := by
  induction l with
  | nil => simp [insertDesc]
  | cons r rest ih =>
    rw [insertDesc]
    by_cases h : p.1.key < r.1.key
    · simp only [if_pos h, List.mem_cons, ih]
      tauto
    · simp only [if_neg h, List.mem_cons]

theorem mem_sortDesc (q : DDate × String) (l : List (DDate × String)) :
    q ∈ sortDesc l ↔ q ∈ l := by
  induction l with
  | nil => simp [sortDesc]
  | cons r rest ih =>
    rw [sortDesc, mem_insertDesc]
    simp [ih]

theorem sortDesc_head_max (l : List (DDate × String)) :
    ∀ h t, sortDesc l = h :: t → ∀ p ∈ l, p.1.key ≤ h.1.key := by
  induction l with
  | nil =>
    intro h t hht
    cases hht
  | cons r rest ih =>
    intro h t hht p hp
    rw [sortDesc] at hht
    rcases hsd : sortDesc rest with _ | ⟨h', t'⟩
    · rw [hsd] at hht
      rw [insertDesc] at hht
      obtain ⟨hh, -⟩ := List.cons.injEq .. |>.mp hht
      rcases List.mem_cons.mp hp with rfl | hp'
      · rw [hh]
      · exfalso
        have := (mem_sortDesc p rest).mpr hp'
        rw [hsd] at this
        cases this
    · rw [hsd] at hht
      rw [insertDesc] at hht
      by_cases hc : r.1.key < h'.1.key
      · rw [if_pos hc] at hht
        obtain ⟨hh, -⟩ := List.cons.injEq .. |>.mp hht
        rcases List.mem_cons.mp hp with rfl | hp'
        · rw [← hh]
          exact Nat.le_of_lt hc
        · rw [← hh]
          exact ih h' t' hsd p hp'
      · rw [if_neg hc] at hht
        obtain ⟨hh, -⟩ := List.cons.injEq .. |>.mp hht
        rcases List.mem_cons.mp hp with rfl | hp'
        · rw [hh]
        · rw [← hh]
          exact Nat.le_trans (ih h' t' hsd p hp') (Nat.le_of_not_lt hc)

/-- C7: a directory name qualifies as a date folder exactly when it is six
digits decoding (as DDMMYY, year 2000+YY) to a valid calendar date;
"2024-01-01" is rejected, "150724" decodes to 15 July 2024; and whenever
the date-folder selection returns a directory, that directory qualifies and
its decoded date is the most recent among all qualifying siblings. -/
theorem date_folder_policy :
    (∀ s : String, (parse_directory_date s).isSome = true ↔
      qualifiesDDMMYY s) ∧
    parse_directory_date "2024-01-01" = none ∧
    parse_directory_date "150724" = some ⟨2024, 7, 15⟩ ∧
    (∀ items sel, findMostRecentDir items = some sel →
      sel ∈ items ∧ ∃ d, parse_directory_date sel = some d ∧
        ∀ n ∈ items, ∀ d', parse_directory_date n = some d' →
          d'.key ≤ d.key) := by
  refine ⟨?_, by decide, by decide, ?_⟩
  · intro s
    exact parseDirDateChars_isSome_iff s.data
  · intro items sel hsel
    rw [findMostRecentDir] at hsel
    rcases hsd : sortDesc (items.filterMap
        (fun n => (parse_directory_date n).map (fun d => (d, n)))) with
      _ | ⟨h, t⟩
    · rw [hsd] at hsel
      cases hsel
    · rw [hsd] at hsel
      have hsel2 : h.2 = sel := by
        simpa using hsel
      have hmem : h ∈ items.filterMap
          (fun n => (parse_directory_date n).map (fun d => (d, n))) := by
        rw [← mem_sortDesc, hsd]
        exact List.mem_cons_self h t
      obtain ⟨n, hn, hfn⟩ := List.mem_filterMap.mp hmem
      rcases hpn : parse_directory_date n with _ | d0
      · rw [hpn] at hfn
        cases hfn
      · rw [hpn] at hfn
        have hfn2 : (d0, n) = h := by
          simpa using hfn
        refine ⟨?_, h.1, ?_, ?_⟩
        · rw [← hsel2, ← hfn2]
          exact hn
        · rw [← hsel2, ← hfn2]
          exact hpn
        · intro n' hn' d' hpd'
          have hmem' : (d', n') ∈ items.filterMap
              (fun n => (parse_directory_date n).map (fun d => (d, n))) :=
            List.mem_filterMap.mpr ⟨n', hn', by rw [hpd']; rfl⟩
          exact sortDesc_head_max _ h t hsd (d', n') hmem'

/-- C7 witness: the selection applied to a directory listing with two
qualifying names, through the theorem's last clause. -/
theorem date_folder_policy_witness :
    "150724" ∈ ["010203", "150724"] ∧
    ∃ d, parse_directory_date "150724" = some d ∧
      ∀ n ∈ ["010203", "150724"], ∀ d',
        parse_directory_date n = some d' → d'.key ≤ d.key :=
  date_folder_policy.2.2.2 ["010203", "150724"] "150724" (by decide)

theorem hasCol_iff_mem (df : Df) (n : String) :
    df.hasCol n = true ↔ n ∈ df.names := by
  simp [Df.hasCol, List.elem_iff]

theorem hasCol_false_iff (df : Df) (n : String) :
    df.hasCol n = false ↔ n ∉ df.names := by
  rw [Bool.eq_false_iff]
  exact not_congr (hasCol_iff_mem df n)

theorem names_rename_eq (df : Df) (old new : String) :
    (df.rename old new).names =
      df.names.map (fun n => if n = old then new else n) := by
  simp only [Df.rename, Df.names, List.map_map]
  congr 1
  funext p
  by_cases h : p.1 = old <;> simp [h]

theorem rename_lower_names (df : Df) (old new : String)
    (h : lowerStr old = lowerStr new) :
    (df.rename old new).names.map lowerStr = df.names.map lowerStr := by
  rw [names_rename_eq, List.map_map]
  congr 1
  funext n
  by_cases hn : n = old
  · simp only [Function.comp, hn, if_pos rfl]
    exact h.symm
  · simp [Function.comp, hn]

theorem ciMatch_some (df : Df) (col m : String)
    (h : df.ciMatch col = some m) :
    m ∈ df.names ∧ lowerStr m = lowerStr col := by
  refine ⟨List.mem_of_find?_eq_some h, ?_⟩
  have := List.find?_some h
  simpa using this

theorem ciMatch_none (df : Df) (col : String) (h : df.ciMatch col = none) :
    ∀ c ∈ df.names, lowerStr c ≠ lowerStr col := by
  intro c hc
  have := List.find?_eq_none.mp h c hc
  simpa using this

theorem rename_hasCol_target (df : Df) (old new : String)
    (h : old ∈ df.names) :
    (df.rename old new).hasCol new = true := by
  rw [hasCol_iff_mem, names_rename_eq]
  exact List.mem_map.mpr ⟨old, h, by simp⟩

theorem rename_hasCol_of_ne (df : Df) (old new col : String)
    (h : df.hasCol col = true) (hne : col ≠ old) :
    (df.rename old new).hasCol col = true := by
  rw [hasCol_iff_mem] at h ⊢
  rw [names_rename_eq]
  exact List.mem_map.mpr ⟨col, h, by simp [hne]⟩

theorem rename_not_hasCol (df : Df) (old new col : String)
    (h : df.hasCol col = false) (hnew : new ≠ col) :
    (df.rename old new).hasCol col = false := by
  rw [hasCol_false_iff] at h ⊢
  rw [names_rename_eq]
  intro hmem
  obtain ⟨n, hn, hfn⟩ := List.mem_map.mp hmem
  by_cases hno : n = old
  · rw [if_pos hno] at hfn
    exact hnew hfn
  · rw [if_neg hno] at hfn
    exact h (hfn ▸ hn)

theorem reconcileStd_lower_names (req : List String) :
    ∀ df : Df,
      (reconcileStd df req).1.names.map lowerStr =
        df.names.map lowerStr := by
  induction req with
  | nil =>
    intro df
    rfl
  | cons col rest ih =>
    intro df
    rw [reconcileStd]
    by_cases h1 : df.hasCol col = true
    · rw [if_pos h1]
      exact ih df
    · rw [if_neg h1]
      rcases hm : df.ciMatch col with _ | m
      · simp only [hm]
        simpa using ih df
      · simp only [hm]
        rw [ih (df.rename m col)]
        exact rename_lower_names df m col (ciMatch_some df col m hm).2

theorem reconcileStd_hasCol_mono (req : List String) :
    ∀ df col, df.hasCol col = true →
      (∀ c ∈ req, c ≠ col → lowerStr c ≠ lowerStr col) →
      (reconcileStd df req).1.hasCol col = true := by
  induction req with
  | nil =>
    intro df col h _
    exact h
  | cons c rest ih =>
    intro df col h hreq
    rw [reconcileStd]
    by_cases h1 : df.hasCol c = true
    · rw [if_pos h1]
      exact ih df col h
        (fun c' hc' => hreq c' (List.mem_cons_of_mem _ hc'))
    · rw [if_neg h1]
      rcases hm : df.ciMatch c with _ | m
      · simp only [hm]
        simpa using ih df col h
          (fun c' hc' => hreq c' (List.mem_cons_of_mem _ hc'))
      · simp only [hm]
        have hmc := ciMatch_some df c m hm
        have hcne : c ≠ col := fun hcc => h1 (hcc ▸ h)
        have hcolm : col ≠ m := by
          intro heq
          apply hreq c (List.mem_cons_self c rest) hcne
          rw [← hmc.2, ← heq]
        exact ih _ col (rename_hasCol_of_ne df m c col h hcolm)
          (fun c' hc' => hreq c' (List.mem_cons_of_mem _ hc'))

theorem reconcileStd_not_hasCol (req : List String) :
    ∀ df col, df.hasCol col = false → (∀ c ∈ req, c ≠ col) →
      (reconcileStd df req).1.hasCol col = false := by
  induction req with
  | nil =>
    intro df col h _
    exact h
  | cons c rest ih =>
    intro df col h hreq
    rw [reconcileStd]
    by_cases h1 : df.hasCol c = true
    · rw [if_pos h1]
      exact ih df col h
        (fun c' hc' => hreq c' (List.mem_cons_of_mem _ hc'))
    · rw [if_neg h1]
      rcases hm : df.ciMatch c with _ | m
      · simp only [hm]
        simpa using ih df col h
          (fun c' hc' => hreq c' (List.mem_cons_of_mem _ hc'))
      · simp only [hm]
        exact ih _ col
          (rename_not_hasCol df m c col h
            (hreq c (List.mem_cons_self c rest)))
          (fun c' hc' => hreq c' (List.mem_cons_of_mem _ hc'))

theorem reconcileStd_covers (req : List String) :
    ∀ df, req.Pairwise (fun a b => lowerStr a ≠ lowerStr b) →
      ∀ col ∈ req,
        (reconcileStd df req).1.hasCol col = true ∨
          col ∈ (reconcileStd df req).2 := by
  induction req with
  | nil =>
    intro df _ col hcol
    cases hcol
  | cons c rest ih =>
    intro df hp col hcol
    have hph := List.pairwise_cons.mp hp
    rw [reconcileStd]
    by_cases h1 : df.hasCol c = true
    · rw [if_pos h1]
      rcases List.mem_cons.mp hcol with rfl | hcol'
      · left
        exact reconcileStd_hasCol_mono rest df col h1
          (fun c' hc' _ => (hph.1 c' hc').symm)
      · exact ih df hph.2 col hcol'
    · rw [if_neg h1]
      rcases hm : df.ciMatch c with _ | m
      · simp only [hm]
        rcases List.mem_cons.mp hcol with rfl | hcol'
        · right
          exact List.mem_cons_self col (reconcileStd df rest).2
        · rcases ih df hph.2 col hcol' with hL | hR
          · left
            simpa using hL
          · right
            simpa using List.mem_cons_of_mem c hR
      · simp only [hm]
        rcases List.mem_cons.mp hcol with rfl | hcol'
        · left
          exact reconcileStd_hasCol_mono rest _ col
            (rename_hasCol_target df m col (ciMatch_some df col m hm).1)
            (fun c' hc' _ => (hph.1 c' hc').symm)
        · exact ih _ hph.2 col hcol'

theorem reconcileStd_missing_subset (req : List String) :
    ∀ df col, col ∈ (reconcileStd df req).2 → col ∈ req := by
  induction req with
  | nil =>
    intro df col h
    cases h
  | cons c rest ih =>
    intro df col h
    rw [reconcileStd] at h
    by_cases h1 : df.hasCol c = true
    · rw [if_pos h1] at h
      exact List.mem_cons_of_mem _ (ih df col h)
    · rw [if_neg h1] at h
      rcases hm : df.ciMatch c with _ | m
      · simp only [hm] at h
        rcases List.mem_cons.mp h with rfl | h'
        · exact List.mem_cons_self col rest
        · exact List.mem_cons_of_mem _ (ih df col h')
      · simp only [hm] at h
        exact List.mem_cons_of_mem _ (ih _ col h)

theorem reconcileStd_missing_not_hasCol (req : List String) :
    ∀ df, req.Pairwise (fun a b => lowerStr a ≠ lowerStr b) →
      ∀ col ∈ (reconcileStd df req).2,
        (reconcileStd df req).1.hasCol col = false := by
  induction req with
  | nil =>
    intro df _ col hcol
    cases hcol
  | cons c rest ih =>
    intro df hp col hcol
    have hph := List.pairwise_cons.mp hp
    rw [reconcileStd] at hcol ⊢
    by_cases h1 : df.hasCol c = true
    · rw [if_pos h1] at hcol ⊢
      exact ih df hph.2 col hcol
    · rw [if_neg h1] at hcol ⊢
      rcases hm : df.ciMatch c with _ | m
      · simp only [hm] at hcol ⊢
        rcases List.mem_cons.mp hcol with rfl | h'
        · exact reconcileStd_not_hasCol rest df col
            (Bool.eq_false_iff.mpr h1)
            (fun c' hc' heq => (hph.1 c' hc') (by rw [heq]))
        · exact ih df hph.2 col h'
      · simp only [hm] at hcol ⊢
        exact ih _ hph.2 col hcol

theorem reconcileStd_missing_nil (req : List String) :
    ∀ df, (∀ col ∈ req, lowerStr col ∈ df.names.map lowerStr) →
      (reconcileStd df req).2 = [] := by
  induction req with
  | nil =>
    intro df _
    rfl
  | cons c rest ih =>
    intro df hall
    rw [reconcileStd]
    by_cases h1 : df.hasCol c = true
    · rw [if_pos h1]
      exact ih df (fun col hcol => hall col (List.mem_cons_of_mem _ hcol))
    · rw [if_neg h1]
      rcases hm : df.ciMatch c with _ | m
      · exfalso
        obtain ⟨x, hx, hlx⟩ :=
          List.mem_map.mp (hall c (List.mem_cons_self c rest))
        exact ciMatch_none df c hm x hx hlx
      · simp only [hm]
        apply ih
        intro col hcol
        rw [rename_lower_names df m c (ciMatch_some df c m hm).2]
        exact hall col (List.mem_cons_of_mem _ hcol)

theorem names_filter_fst (cols : List (String × List String)) (n : String) :
    (cols.filter (fun p => p.1 = n)).map Prod.fst =
      (cols.map Prod.fst).filter (fun x => x = n) := by
  induction cols with
  | nil => rfl
  | cons p ps ih =>
    by_cases h : p.1 = n <;> simp [h, ih]

theorem names_select (df : Df) (ns : List String) :
    (df.select ns).names =
      ns.flatMap (fun n => df.names.filter (fun x => x = n)) := by
  simp only [Df.select, Df.names]
  rw [List.map_flatMap]
  congr 1
  funext n
  exact names_filter_fst df.cols n

theorem mem_names_select (df : Df) (ns : List String) (x : String) :
    x ∈ (df.select ns).names ↔ x ∈ ns ∧ x ∈ df.names := by
  rw [names_select, List.mem_flatMap]
  constructor
  · rintro ⟨a, ha, hx⟩
    have hfa := List.mem_filter.mp hx
    have hxa : x = a := by simpa using hfa.2
    exact ⟨hxa ▸ ha, hfa.1⟩
  · rintro ⟨hns, hnames⟩
    exact ⟨x, hns, List.mem_filter.mpr ⟨hnames, by simp⟩⟩

theorem pairwise_of_all_eq {α : Type} (R : α → α → Prop) (l : List α)
    (a : α) (h : ∀ x ∈ l, x = a) (hR : R a a) : l.Pairwise R := by
  induction l with
  | nil => constructor
  | cons x xs ih =>
    constructor
    · intro y hy
      rw [h x (List.mem_cons_self x xs), h y (List.mem_cons_of_mem _ hy)]
      exact hR
    · exact ih (fun y hy => h y (List.mem_cons_of_mem _ hy))

theorem pairwise_flatMap_blocks (req names : List String) :
    ∀ ns : List String,
      ns.Pairwise (fun a b => req.indexOf a ≤ req.indexOf b) →
      (ns.flatMap (fun n => names.filter (fun x => x = n))).Pairwise
        (fun a b => req.indexOf a ≤ req.indexOf b) := by
  intro ns
  induction ns with
  | nil =>
    intro _
    constructor
  | cons a as ih =>
    intro h
    have hpc := List.pairwise_cons.mp h
    rw [List.flatMap_cons, List.pairwise_append]
    refine ⟨?_, ih hpc.2, ?_⟩
    · refine pairwise_of_all_eq _ _ a ?_ (le_refl _)
      intro x hx
      simpa using (List.mem_filter.mp hx).2
    · intro x hx y hy
      have hxa : x = a := by simpa using (List.mem_filter.mp hx).2
      obtain ⟨b, hb, hyb⟩ := List.mem_flatMap.mp hy
      have hyb2 : y = b := by simpa using (List.mem_filter.mp hyb).2
      rw [hxa, hyb2]
      exact hpc.1 b hb

theorem filter_eq_singleton_of_nodup (l : List String) (a : String)
    (hnd : l.Nodup) (ha : a ∈ l) :
    l.filter (fun x => x = a) = [a] := by
  induction l with
  | nil => cases ha
  | cons x xs ih =>
    have hnd2 := List.nodup_cons.mp hnd
    rcases List.mem_cons.mp ha with rfl | ha'
    · have hxs : xs.filter (fun x => x = a) = [] := by
        rw [List.filter_eq_nil_iff]
        intro y hy
        simp only [decide_eq_true_eq]
        exact fun hya => hnd2.1 (hya ▸ hy)
      rw [List.filter_cons, if_pos (by simp)]
      rw [hxs]
    · have hxa : x ≠ a := fun hxa => hnd2.1 (hxa ▸ ha')
      rw [List.filter_cons, if_neg (by simp [hxa])]
      exact ih hnd2.2 ha'

theorem flatMap_singleton_blocks (names : List String) (hnd : names.Nodup) :
    ∀ ns : List String, (∀ n ∈ ns, n ∈ names) →
      ns.flatMap (fun n => names.filter (fun x => x = n)) = ns := by
  intro ns
  induction ns with
  | nil =>
    intro _
    rfl
  | cons a as ih =>
    intro hmem
    rw [List.flatMap_cons,
      filter_eq_singleton_of_nodup names a hnd
        (hmem a (List.mem_cons_self a as)),
      ih (fun n hn => hmem n (List.mem_cons_of_mem _ hn))]
    rfl

/-- C5: for every raw table and schema (whose names are pairwise distinct
case-insensitively, as all three mode schemas are), reconciliation yields
only schema columns, in schema order; a name is required exactly when it is
either present in the output or reported missing, and never both; and a
table already containing every required name up to case and quoting (with
distinct cleaned names) yields empty MissingColumns and column order
exactly the schema order. -/
theorem reconcile_schema_invariant (df : Df) (required : List String)
    (hp : required.Pairwise (fun a b => lowerStr a ≠ lowerStr b))
    (hord : required.Pairwise
      (fun a b => required.indexOf a ≤ required.indexOf b)) :
    (∀ n ∈ (loadColsStd df required).1.names, n ∈ required) ∧
    (∀ col, col ∈ required ↔
      (col ∈ (loadColsStd df required).1.names ∨
        col ∈ (loadColsStd df required).2)) ∧
    (∀ col ∈ (loadColsStd df required).2,
      col ∉ (loadColsStd df required).1.names) ∧
    (loadColsStd df required).1.names.Pairwise
      (fun a b => required.indexOf a ≤ required.indexOf b) ∧
    ((∀ col ∈ required, lowerStr col ∈ df.cleanNames.names.map lowerStr) →
      (df.cleanNames.names.map lowerStr).Nodup →
      (loadColsStd df required).2 = [] ∧
      (loadColsStd df required).1.names = required) := by
  have hfst : (loadColsStd df required).1 =
      (reconcileStd df.cleanNames required).1.select
        (required.filter
          (fun c => (reconcileStd df.cleanNames required).1.hasCol c)) :=
    rfl
  have hsnd : (loadColsStd df required).2 =
      (reconcileStd df.cleanNames required).2 := rfl
  have hmemnames : ∀ n, n ∈ (loadColsStd df required).1.names ↔
      (n ∈ required.filter
          (fun c => (reconcileStd df.cleanNames required).1.hasCol c) ∧
        n ∈ (reconcileStd df.cleanNames required).1.names) := by
    intro n
    rw [hfst]
    exact mem_names_select _ _ n
  refine ⟨?_, ?_, ?_, ?_, ?_⟩
  · intro n hn
    exact List.mem_of_mem_filter ((hmemnames n).mp hn).1
  · intro col
    constructor
    · intro hcol
      rcases reconcileStd_covers required df.cleanNames hp col hcol with
        hL | hR
      · left
        refine (hmemnames col).mpr ⟨List.mem_filter.mpr ⟨hcol, ?_⟩, ?_⟩
        · simpa using hL
        · exact (hasCol_iff_mem _ col).mp hL
      · right
        rw [hsnd]
        exact hR
    · intro h
      rcases h with hL | hR
      · exact List.mem_of_mem_filter ((hmemnames col).mp hL).1
      · rw [hsnd] at hR
        exact reconcileStd_missing_subset required df.cleanNames col hR
  · intro col hcol hmem
    have hfalse := reconcileStd_missing_not_hasCol required df.cleanNames
      hp col (hsnd ▸ hcol)
    have := ((hmemnames col).mp hmem).2
    rw [hasCol_false_iff] at hfalse
    exact hfalse this
  · rw [hfst, names_select]
    exact pairwise_flatMap_blocks required _ _
      (hord.sublist (List.filter_sublist required))
  · intro hall hnd
    have hmiss : (reconcileStd df.cleanNames required).2 = [] :=
      reconcileStd_missing_nil required df.cleanNames hall
    have hallcol : ∀ col ∈ required,
        (reconcileStd df.cleanNames required).1.hasCol col = true := by
      intro col hcol
      rcases reconcileStd_covers required df.cleanNames hp col hcol with
        hL | hR
      · exact hL
      · rw [hmiss] at hR
        cases hR
    have hfilter : required.filter
        (fun c => (reconcileStd df.cleanNames required).1.hasCol c)
        = required := by
      rw [List.filter_eq_self]
      intro a ha
      exact hallcol a ha
    have hnodup : (reconcileStd df.cleanNames required).1.names.Nodup := by
      apply List.Nodup.of_map lowerStr
      rw [reconcileStd_lower_names required df.cleanNames]
      exact hnd
    refine ⟨hsnd ▸ hmiss, ?_⟩
    rw [hfst, names_select, hfilter]
    exact flatMap_singleton_blocks _ hnodup required
      (fun n hn => (hasCol_iff_mem _ n).mp (hallcol n hn))

/-- C5 witness: an alarm table carrying every required column up to case
and quoting plus an extra column, evaluated through the theorem's
round-trip clause. -/
theorem reconcile_schema_invariant_witness :
    (loadColsStd ⟨[(" \"Date\"", ["d"]), ("TIME", ["t"]),
        ("Alarm Message", ["m"]), ("alarm status", ["s"]),
        ("Extra", ["e"])]⟩ alarmRequired).2 = [] ∧
    (loadColsStd ⟨[(" \"Date\"", ["d"]), ("TIME", ["t"]),
        ("Alarm Message", ["m"]), ("alarm status", ["s"]),
        ("Extra", ["e"])]⟩ alarmRequired).1.names = alarmRequired :=
  (reconcile_schema_invariant
    ⟨[(" \"Date\"", ["d"]), ("TIME", ["t"]), ("Alarm Message", ["m"]),
      ("alarm status", ["s"]), ("Extra", ["e"])]⟩ alarmRequired
    (by decide) (by decide)).2.2.2.2 (by decide) (by decide)

/-- C2 amended: the dedicated loaders' column phase is a total function
that degrades on missing columns — the output table is restricted to
required columns, and the missing-columns disclosure note appears in the
assembled document exactly when the missing list is non-empty — while the
consolidated `generate_report._load_df` instead raises `ValueError` when
any required column is absent. -/
theorem reconcile_degrades_to_note (df : Df) (required : List String)
    (title : String) :
    (∀ n ∈ (loadColsStd df required).1.names, n ∈ required) ∧
    ((create_missing_columns_note (loadColsStd df required).2).isSome ↔
      (loadColsStd df required).2 ≠ []) ∧
    (StoryElem.missingNote (loadColsStd df required).2 ∈
        buildStory title (loadColsStd df required).1
          (loadColsStd df required).2 ↔
      (loadColsStd df required).2 ≠ []) := by
  have hfst : (loadColsStd df required).1 =
      (reconcileStd df.cleanNames required).1.select
        (required.filter
          (fun c => (reconcileStd df.cleanNames required).1.hasCol c)) :=
    rfl
  refine ⟨?_, ?_, ?_⟩
  · intro n hn
    rw [hfst] at hn
    exact List.mem_of_mem_filter ((mem_names_select _ _ n).mp hn).1
  · rw [create_missing_columns_note]
    by_cases h : (loadColsStd df required).2 = [] <;> simp [h]
  · rw [buildStory]
    by_cases h : (loadColsStd df required).2 = []
    · by_cases h0 : (loadColsStd df required).1.rowCount = 0 <;>
        simp [h, h0]
    · simp [h]

/-- C2 witness: a table missing three of the four alarm columns, pushed
through the theorem's disclosure-note clause. -/
theorem reconcile_degrades_to_note_witness :
    StoryElem.missingNote
        (loadColsStd ⟨[("Date", ["d"])]⟩ alarmRequired).2 ∈
      buildStory "t" (loadColsStd ⟨[("Date", ["d"])]⟩ alarmRequired).1
        (loadColsStd ⟨[("Date", ["d"])]⟩ alarmRequired).2 :=
  (reconcile_degrades_to_note ⟨[("Date", ["d"])]⟩ alarmRequired "t").2.2.mpr
    (by decide)

end Pap
